import Mathlib

/-!
Verification of the fetch orchestration in `pipe2py/modules/pipefetch.py`.

The module exposes two orchestrators:

* `parser(_, urls, skip, **kwargs)` — the sequential one.  With `skip`
  true it returns `(kwargs['feed'], skip)`; otherwise it builds a fully
  lazy chain `urls → get_abspath → urlopen(...).read() → speedparser.parse
  → gen_entries → multiplex` and returns `(feed, skip)` without performing
  any work yet.
* `asyncParser(_, urls, skip, **kwargs)` — the concurrent one.  The skip
  branch is identical; otherwise it eagerly resolves every url and issues
  every retrieval (`yield tu.asyncImap(tu.urlRead, abs_urls)`), suspending
  until all contents have arrived, and only then builds the lazy
  parse/normalize/multiplex chain over the retrieved contents.

The collaborators (`utils.get_abspath`, `urlopen`/`tu.urlRead`,
`speedparser.parse`, `utils.gen_entries`, `utils.multiplex`) are external
to the file under study; they are modelled abstractly as an environment of
functions, failures as `Option` results.  Every run of an orchestrator is
instrumented with a trace of collaborator events so that the temporal
claims (what work happened, and when) are statable.
-/

namespace Pipefetch

/-- The error kinds of the design: resolution, retrieval and feed-parse
failures of the collaborators, plus the `KeyError` a Python mapping raises
when `kwargs['feed']` is absent. -/
inductive Err where
  | resolution
  | retrieval
  | parseError
  | keyError
deriving DecidableEq, Repr

/-- One observable collaborator invocation: resolving a source url,
issuing the retrieval of a resolved location, or feeding raw content to
the feed-format parser. -/
inductive Ev where
  | resolve (url : String)
  | retrieve (loc : String)
  | parseDoc (content : String)
deriving DecidableEq, Repr

/-- The external collaborators, as an abstract environment.
`get_abspath` is the Source Resolver (`utils.get_abspath`), `urlread` the
Content Reader (`urlopen(url).read()` / `tu.urlRead`), `sp_parse` the Feed
Parser Adapter (`speedparser.parse`, producing an opaque document `δ`),
and `gen_entries` the Entry Normalizer (`utils.gen_entries`, producing the
entries `ε` of one source; the spec states it never fails).  A `none`
result models the collaborator raising its error. -/
structure Env (δ ε : Type) where
  get_abspath : String → Option String
  urlread : String → Option String
  sp_parse : String → Option δ
  gen_entries : δ → List ε

/-- The value the sequential `parser` hands back as first component:
either the caller's fallback feed taken verbatim from `kwargs['feed']`
(skip path), or the still-unevaluated lazy pipeline over the source urls
(nothing has been resolved, retrieved or parsed yet). -/
inductive Feed (ε : Type) where
  | fallback (entries : List ε)
  | pipeline (urls : List String)
deriving DecidableEq, Repr

/-- The value `asyncParser` hands back as first component: either the
fallback feed, or the lazy parse/normalize chain over the already
retrieved raw contents (retrieval was eager, parsing is still pending). -/
inductive AFeed (ε : Type) where
  | fallback (entries : List ε)
  | pipeline (contents : List String)
deriving DecidableEq, Repr

/-- `parser(_, urls, skip, **kwargs)` of `pipefetch.py` (the ignored `_`
argument is dropped).  `kwargs` is modelled as the optional `feed` entry:
`none` means no `feed` key was supplied, so `kwargs['feed']` raises
`KeyError`.  With `skip` false the function only builds the lazy chain;
no collaborator runs, hence no trace and no possible failure here. -/
def parser {ε : Type} (urls : List String) (skip : Bool)
    (kwargs : Option (List ε)) : Except Err (Feed ε × Bool) :=
  if skip then
    match kwargs with
    | some feed => Except.ok (Feed.fallback feed, skip)
    | none => Except.error Err.keyError
  else
    Except.ok (Feed.pipeline urls, skip)

/-- The work the lazy chain performs for one source when its entries are
first pulled: resolve the url, read the resolved location, parse the raw
content, normalize the document.  Returns the source's entry list (or the
first error) together with the trace of collaborator events that actually
ran. -/
def fetchSource {δ ε : Type} (env : Env δ ε) (u : String) :
    Except Err (List ε) × List Ev :=
  match env.get_abspath u with
  | none => (Except.error Err.resolution, [Ev.resolve u])
  | some loc =>
    match env.urlread loc with
    | none => (Except.error Err.retrieval, [Ev.resolve u, Ev.retrieve loc])
    | some content =>
      match env.sp_parse content with
      | none =>
        (Except.error Err.parseError,
          [Ev.resolve u, Ev.retrieve loc, Ev.parseDoc content])
      | some doc =>
        (Except.ok (env.gen_entries doc),
          [Ev.resolve u, Ev.retrieve loc, Ev.parseDoc content])

/-- Fully consuming the sequential lazy chain (`utils.multiplex` over the
per-source entry generators; modelled from the spec: `utils.multiplex` is
not under src/, the spec defines it as ordered, lazy concatenation in
source-declaration order).  Sources are processed strictly left to right;
the first failure aborts consumption, keeping only the events that had
already run. -/
def consumePipeline {δ ε : Type} (env : Env δ ε) :
    List String → Except Err (List ε) × List Ev
  | [] => (Except.ok [], [])
  | u :: rest =>
    match fetchSource env u with
    | (Except.error e, tr) => (Except.error e, tr)
    | (Except.ok es, tr) =>
      match consumePipeline env rest with
      | (Except.error e, tr2) => (Except.error e, tr ++ tr2)
      | (Except.ok more, tr2) => (Except.ok (es ++ more), tr ++ tr2)

/-- Fully consuming a `Feed`: the fallback is already materialized (no
work), the pipeline runs its chain. -/
def consumeFeed {δ ε : Type} (env : Env δ ε) :
    Feed ε → Except Err (List ε) × List Ev
  | Feed.fallback es => (Except.ok es, [])
  | Feed.pipeline urls => consumePipeline env urls

/-- Calling the sequential `parser` and then fully consuming the feed it
returned: the observable end-to-end behaviour, with its event trace. -/
def runParser {δ ε : Type} (env : Env δ ε) (urls : List String)
    (skip : Bool) (kwargs : Option (List ε)) :
    Except Err (List ε × Bool) × List Ev :=
  match parser urls skip kwargs with
  | Except.error e => (Except.error e, [])
  | Except.ok (feed, sk) =>
    match consumeFeed env feed with
    | (Except.error e, tr) => (Except.error e, tr)
    | (Except.ok es, tr) => (Except.ok (es, sk), tr)

/-- The eager part of `asyncParser`: `tu.asyncImap(tu.urlRead, abs_urls)`
(modelled from the spec: `tu.asyncImap`/`tu.urlRead` are not under src/;
the spec describes a fan-out that issues every retrieval and suspends once
until all complete, failing as a whole if any member fails).  Building the
fan-out forces each lazy `get_abspath` and issues each read in source
order, synchronously, before any completion is observed: hence a
resolution failure preempts read failures, and every successfully resolved
source's retrieval is issued even when a sibling's read fails. -/
def asyncRetrieveAll {δ ε : Type} (env : Env δ ε) :
    List String → Except Err (List String) × List Ev
  | [] => (Except.ok [], [])
  | u :: rest =>
    match env.get_abspath u with
    | none => (Except.error Err.resolution, [Ev.resolve u])
    | some loc =>
      match asyncRetrieveAll env rest with
      | (Except.error e, tr) =>
        (Except.error e, Ev.resolve u :: Ev.retrieve loc :: tr)
      | (Except.ok contents, tr) =>
        match env.urlread loc with
        | none => (Except.error Err.retrieval,
            Ev.resolve u :: Ev.retrieve loc :: tr)
        | some c => (Except.ok (c :: contents),
            Ev.resolve u :: Ev.retrieve loc :: tr)

/-- `asyncParser(_, urls, skip, **kwargs)` of `pipefetch.py`.  The skip
branch mirrors the sequential one.  Otherwise all retrievals run eagerly
inside the call (the single `yield`), and the returned feed is the lazy
parse/normalize chain over the retrieved contents.  The second component
is the trace of events the call itself performed. -/
def asyncParser {δ ε : Type} (env : Env δ ε) (urls : List String)
    (skip : Bool) (kwargs : Option (List ε)) :
    Except Err (AFeed ε × Bool) × List Ev :=
  if skip then
    match kwargs with
    | some feed => (Except.ok (AFeed.fallback feed, skip), [])
    | none => (Except.error Err.keyError, [])
  else
    match asyncRetrieveAll env urls with
    | (Except.error e, tr) => (Except.error e, tr)
    | (Except.ok contents, tr) =>
      (Except.ok (AFeed.pipeline contents, skip), tr)

/-- Fully consuming the deferred parse/normalize chain of the concurrent
orchestrator over the retrieved raw contents, in source order. -/
def consumeContents {δ ε : Type} (env : Env δ ε) :
    List String → Except Err (List ε) × List Ev
  | [] => (Except.ok [], [])
  | c :: rest =>
    match env.sp_parse c with
    | none => (Except.error Err.parseError, [Ev.parseDoc c])
    | some doc =>
      match consumeContents env rest with
      | (Except.error e, tr) => (Except.error e, Ev.parseDoc c :: tr)
      | (Except.ok more, tr) =>
        (Except.ok (env.gen_entries doc ++ more), Ev.parseDoc c :: tr)

/-- Fully consuming an `AFeed`. -/
def consumeAFeed {δ ε : Type} (env : Env δ ε) :
    AFeed ε → Except Err (List ε) × List Ev
  | AFeed.fallback es => (Except.ok es, [])
  | AFeed.pipeline contents => consumeContents env contents

/-- Calling `asyncParser` and then fully consuming the feed it returned;
the trace concatenates the call's eager events with the consumption's
deferred ones. -/
def runAsyncParser {δ ε : Type} (env : Env δ ε) (urls : List String)
    (skip : Bool) (kwargs : Option (List ε)) :
    Except Err (List ε × Bool) × List Ev :=
  match asyncParser env urls skip kwargs with
  | (Except.error e, tr) => (Except.error e, tr)
  | (Except.ok (feed, sk), tr) =>
    match consumeAFeed env feed with
    | (Except.error e, tr2) => (Except.error e, tr ++ tr2)
    | (Except.ok es, tr2) => (Except.ok (es, sk), tr ++ tr2)

/-- Forgets the trace and the error kind of a run: `some` of the
successful result, `none` on any failure. -/
def resOk {α : Type} : Except Err α × List Ev → Option α
  | (Except.ok a, _) => some a
  | (Except.error _, _) => none

/-- Golden description of a successful fetch of all sources: each source
resolves, reads, parses and normalizes, and the per-source entry lists are
concatenated in source-declaration order. -/
def fetchAll {δ ε : Type} (env : Env δ ε) : List String → Option (List ε)
  | [] => some []
  | u :: rest =>
    match (fetchSource env u).1 with
    | Except.error _ => none
    | Except.ok es => (fetchAll env rest).map (fun more => es ++ more)

/-- Golden description of a successful run of either orchestrator. -/
def runSpec {δ ε : Type} (env : Env δ ε) (urls : List String)
    (skip : Bool) (kwargs : Option (List ε)) : Option (List ε × Bool) :=
  if skip then kwargs.map (fun f => (f, true))
  else (fetchAll env urls).map (fun es => (es, false))

/-- Pulling at most `n` entries from the sequential lazy chain.  A
source's resolution, retrieval and parse run only when the consumer's
demand reaches that source: once the requested entries are available from
the sources processed so far, no later source is touched; the chain
advances to the next source only after the current one is exhausted.
Returns the pulled entries (fewer than `n` if the chain ends early, or
the error that surfaced mid-iteration) and the trace of events that ran. -/
def seqPull {δ ε : Type} (env : Env δ ε) :
    List String → Nat → Except Err (List ε) × List Ev
  | _, 0 => (Except.ok [], [])
  | [], _ + 1 => (Except.ok [], [])
  | u :: rest, n + 1 =>
    match fetchSource env u with
    | (Except.error e, tr) => (Except.error e, tr)
    | (Except.ok es, tr) =>
      if n + 1 ≤ es.length then (Except.ok (es.take (n + 1)), tr)
      else
        match seqPull env rest (n + 1 - es.length) with
        | (Except.error e, tr2) => (Except.error e, tr ++ tr2)
        | (Except.ok more, tr2) => (Except.ok (es ++ more), tr ++ tr2)

/-- Golden description of resolving every source, in order. -/
def resolveAll {δ ε : Type} (env : Env δ ε) :
    List String → Option (List String)
  | [] => some []
  | u :: rest =>
    match env.get_abspath u with
    | none => none
    | some loc => (resolveAll env rest).map (fun ls => loc :: ls)

/-- A concrete collaborator environment used to exercise the theorems on
closed inputs: url "bad" fails to resolve, location "abs:dead" fails to
read, content "raw:abs:junk" fails to parse; a parsed document is the
content's length and normalizes to two entries. -/
def envW : Env Nat Nat where
  get_abspath u := if u = "bad" then none else some ("abs:" ++ u)
  urlread l := if l = "abs:dead" then none else some ("raw:" ++ l)
  sp_parse c := if c = "raw:abs:junk" then none else some c.length
  gen_entries d := [d, d + 1]

/-- Modelled from the spec: the Merger (`utils.multiplex`) operates on
lazy, possibly infinite per-source entry sequences; such a sequence is
either a finite list of entries or an endless stream of them. -/
inductive LSeq (α : Type) where
  | fin (l : List α)
  | inf (f : Nat → α)

/-- Consuming a possibly infinite sequence: the entry at position `n`,
or `none` once consumption has reached the end. -/
def LSeq.nth {α : Type} : LSeq α → Nat → Option α
  | LSeq.fin l, n => l.get? n
  | LSeq.inf f, n => some (f n)

/-- Whether the sequence ends. -/
def LSeq.isFinite {α : Type} : LSeq α → Bool
  | LSeq.fin _ => true
  | LSeq.inf _ => false

/-- Ordered concatenation of two possibly infinite sequences: all of the
first sequence's entries, then — only if the first ends — the second's. -/
def LSeq.append {α : Type} : LSeq α → LSeq α → LSeq α
  | LSeq.fin l, LSeq.fin m => LSeq.fin (l ++ m)
  | LSeq.fin l, LSeq.inf g =>
    LSeq.inf (fun n => if h : n < l.length then l.get ⟨n, h⟩ else g (n - l.length))
  | LSeq.inf f, _ => LSeq.inf f

/-- Modelled from the spec: `utils.multiplex` (the Merger) is not under
src/; the spec defines it as the ordered concatenation of the per-source
entry sequences in source-declaration order. -/
def multiplex {α : Type} (ss : List (LSeq α)) : LSeq α :=
  ss.foldr LSeq.append (LSeq.fin [])

end Pipefetch

namespace Pipefetch

/-- The sequential run meets the golden description, up to trace and
error kind. -/
theorem runParser_spec {δ ε : Type} (env : Env δ ε) (urls : List String)
    (skip : Bool) (kwargs : Option (List ε)) :
    resOk (runParser env urls skip kwargs) = runSpec env urls skip kwargs := by
  cases skip with
  | true =>
    cases kwargs with
    | none => rfl
    | some f => rfl
  | false =>
    show resOk (match consumePipeline env urls with
      | (Except.error e, tr) => (Except.error e, tr)
      | (Except.ok es, tr) => (Except.ok (es, false), tr)) =
        (fetchAll env urls).map (fun es => (es, false))
    induction urls with
    | nil => rfl
    | cons u rest ih =>
      simp only [consumePipeline, fetchAll]
      rcases hf : fetchSource env u with ⟨r, tr⟩
      cases r with
      | error e => simp [resOk, hf]
      | ok es =>
        rcases hc : consumePipeline env rest with ⟨r2, tr2⟩
        rw [hc] at ih
        cases r2 with
        | error e =>
          simp only [resOk] at ih
          cases hfa : fetchAll env rest with
          | none => simp [resOk, hf, hfa]
          | some m2 => rw [hfa] at ih; simp at ih
        | ok more =>
          simp only [resOk] at ih
          cases hfa : fetchAll env rest with
          | none => rw [hfa] at ih; simp at ih
          | some m2 =>
            rw [hfa] at ih
            simp only [Option.map_some', Option.some.injEq, Prod.mk.injEq,
              and_true] at ih
            simp [resOk, hf, hfa, ih]

/-- Golden description of resolving and reading every source. -/
def readAllSpec {δ ε : Type} (env : Env δ ε) :
    List String → Option (List String)
  | [] => some []
  | u :: rest =>
    match env.get_abspath u with
    | none => none
    | some loc =>
      match env.urlread loc with
      | none => none
      | some c => (readAllSpec env rest).map (fun cs => c :: cs)

/-- Golden description of parsing, normalizing and concatenating the
retrieved contents. -/
def parseAllSpec {δ ε : Type} (env : Env δ ε) :
    List String → Option (List ε)
  | [] => some []
  | c :: rest =>
    match env.sp_parse c with
    | none => none
    | some doc =>
      (parseAllSpec env rest).map (fun more => env.gen_entries doc ++ more)

/-- The eager fan-out succeeds exactly when every source resolves and
reads, and then returns the contents in source order. -/
theorem asyncRetrieveAll_spec {δ ε : Type} (env : Env δ ε)
    (urls : List String) :
    resOk (asyncRetrieveAll env urls) = readAllSpec env urls := by
  induction urls with
  | nil => rfl
  | cons u rest ih =>
    simp only [asyncRetrieveAll, readAllSpec]
    cases hg : env.get_abspath u with
    | none => rfl
    | some loc =>
      rcases hr : asyncRetrieveAll env rest with ⟨r, tr⟩
      rw [hr] at ih
      cases r with
      | error e =>
        simp only [resOk] at ih
        cases hu : env.urlread loc with
        | none => simp [resOk, hu]
        | some c => simp [resOk, hu, ← ih]
      | ok contents =>
        simp only [resOk] at ih
        cases hu : env.urlread loc with
        | none => simp [resOk, hu]
        | some c => simp [resOk, hu, ← ih]

/-- Consuming the deferred parse chain succeeds exactly when every
content parses, and concatenates the normalized entries in order. -/
theorem consumeContents_spec {δ ε : Type} (env : Env δ ε)
    (contents : List String) :
    resOk (consumeContents env contents) = parseAllSpec env contents := by
  induction contents with
  | nil => rfl
  | cons c rest ih =>
    simp only [consumeContents, parseAllSpec]
    cases hp : env.sp_parse c with
    | none => rfl
    | some doc =>
      rcases hr : consumeContents env rest with ⟨r, tr⟩
      rw [hr] at ih
      cases r with
      | error e => simp only [resOk] at ih; simp [resOk, ← ih]
      | ok more => simp only [resOk] at ih; simp [resOk, ← ih]

/-- Reading everything and then parsing everything is the same as
fetching source by source. -/
theorem readAll_then_parseAll {δ ε : Type} (env : Env δ ε)
    (urls : List String) :
    (readAllSpec env urls).bind (parseAllSpec env) = fetchAll env urls := by
  induction urls with
  | nil => rfl
  | cons u rest ih =>
    simp only [readAllSpec, fetchAll, fetchSource]
    cases hg : env.get_abspath u with
    | none => rfl
    | some loc =>
      cases hu : env.urlread loc with
      | none => simp [hu]
      | some c =>
        cases hp : env.sp_parse c with
        | none =>
          cases hra : readAllSpec (ε := ε) env rest with
          | none => simp [hu, hra, hp]
          | some cs => simp [hu, hra, parseAllSpec, hp]
        | some doc =>
          cases hra : readAllSpec (ε := ε) env rest with
          | none =>
            rw [hra] at ih
            simp only [Option.bind] at ih
            simp [hu, hp, hra, ← ih]
          | some cs =>
            rw [hra] at ih
            simp only [Option.bind] at ih
            simp [hu, hp, hra, parseAllSpec, ih, Option.map_map]

/-- The concurrent run meets the same golden description, up to trace
and error kind. -/
theorem runAsyncParser_spec {δ ε : Type} (env : Env δ ε)
    (urls : List String) (skip : Bool) (kwargs : Option (List ε)) :
    resOk (runAsyncParser env urls skip kwargs) =
      runSpec env urls skip kwargs := by
  cases skip with
  | true =>
    cases kwargs with
    | none => rfl
    | some f => rfl
  | false =>
    have h1 := asyncRetrieveAll_spec (ε := ε) env urls
    have h3 := readAll_then_parseAll (ε := ε) env urls
    simp only [runAsyncParser, asyncParser, runSpec, if_neg Bool.false_ne_true]
    rcases hr : asyncRetrieveAll env urls with ⟨r, tr⟩
    rw [hr] at h1
    cases r with
    | error e =>
      simp only [resOk] at h1
      rw [← h1] at h3
      simp only [Option.bind] at h3
      simp [resOk, ← h3]
    | ok contents =>
      simp only [resOk] at h1
      rw [← h1] at h3
      simp only [Option.bind] at h3
      have h2 := consumeContents_spec (ε := ε) env contents
      simp only [consumeAFeed]
      rcases hc : consumeContents env contents with ⟨r2, tr2⟩
      rw [hc] at h2
      cases r2 with
      | error e =>
        simp only [resOk] at h2
        rw [← h2] at h3
        simp [resOk, ← h3]
      | ok es =>
        simp only [resOk] at h2
        rw [← h2] at h3
        simp [resOk, ← h3]

/-- A successful full fetch means every listed source fetched
successfully. -/
theorem fetchAll_sourceOk {δ ε : Type} (env : Env δ ε) (urls : List String)
    (es : List ε) (h : fetchAll env urls = some es) (u : String)
    (hm : u ∈ urls) : ∃ es1, (fetchSource env u).1 = Except.ok es1 := by
  induction urls generalizing es with
  | nil => cases hm
  | cons v rest ih =>
    simp only [fetchAll] at h
    cases hf : (fetchSource env v).1 with
    | error e => rw [hf] at h; cases h
    | ok es1 =>
      rw [hf] at h
      rcases List.mem_cons.mp hm with rfl | hm2
      · exact ⟨es1, hf⟩
      · cases hfa : fetchAll env rest with
        | none => rw [hfa] at h; cases h
        | some more => exact ih more hfa hm2

/-- A successful golden run carries the unchanged skip flag. -/
theorem runSpec_flag {δ ε : Type} (env : Env δ ε) (urls : List String)
    (skip : Bool) (kwargs : Option (List ε)) (es : List ε) (b : Bool)
    (h : runSpec env urls skip kwargs = some (es, b)) : b = skip := by
  cases skip with
  | true =>
    cases kwargs with
    | none =>
      have h2 : (none : Option (List ε × Bool)) = some (es, b) := h
      cases h2
    | some f =>
      have h2 : (some (f, true) : Option (List ε × Bool)) = some (es, b) := h
      cases h2
      rfl
  | false =>
    have h2 : (fetchAll env urls).map (fun l => (l, false)) = some (es, b) := h
    cases hfa : fetchAll env urls with
    | none => rw [hfa] at h2; cases h2
    | some es2 =>
      rw [hfa] at h2
      simp only [Option.map_some', Option.some.injEq, Prod.mk.injEq] at h2
      exact h2.2.symm

/-- A run whose first component is a success is seen by `resOk`. -/
theorem resOk_of_fst {α : Type} (p : Except Err α × List Ev) (a : α)
    (h : p.1 = Except.ok a) : resOk p = some a := by
  rcases p with ⟨r, tr⟩
  simp only at h
  rw [h]
  rfl

/-- The trace of the concurrent orchestrator call on the retrieval path
is exactly the eager fan-out's trace. -/
theorem asyncParser_trace {δ ε : Type} (env : Env δ ε)
    (urls : List String) (kwargs : Option (List ε)) :
    (asyncParser env urls false kwargs).2 = (asyncRetrieveAll env urls).2 := by
  simp only [asyncParser, if_neg Bool.false_ne_true]
  rcases asyncRetrieveAll env urls with ⟨r, tr⟩
  cases r <;> rfl

/-- When a source resolves, the fan-out's trace starts with that
source's resolve and retrieve events and continues with the trace of the
remaining sources, whatever the reads return. -/
theorem asyncRetrieveAll_cons {δ ε : Type} (env : Env δ ε) (u loc : String)
    (rest : List String) (hg : env.get_abspath u = some loc) :
    (asyncRetrieveAll env (u :: rest)).2 =
      Ev.resolve u :: Ev.retrieve loc :: (asyncRetrieveAll env rest).2 := by
  simp only [asyncRetrieveAll, hg]
  rcases asyncRetrieveAll env rest with ⟨r, tr⟩
  cases r with
  | error e => rfl
  | ok contents => cases env.urlread loc <;> rfl

/-- Every resolved location's retrieval is issued by the eager fan-out,
whatever the individual reads return. -/
theorem asyncRetrieveAll_issues {δ ε : Type} (env : Env δ ε)
    (urls : List String) (locs : List String)
    (hres : resolveAll (δ := δ) (ε := ε) env urls = some locs) :
    ∀ l ∈ locs, Ev.retrieve l ∈ (asyncRetrieveAll env urls).2 := by
  induction urls generalizing locs with
  | nil =>
    simp only [resolveAll, Option.some.injEq] at hres
    subst hres
    intro l hl
    cases hl
  | cons u rest ih =>
    cases hg : env.get_abspath u with
    | none => simp only [resolveAll, hg] at hres; cases hres
    | some loc =>
      simp only [resolveAll, hg] at hres
      cases hra : resolveAll (δ := δ) (ε := ε) env rest with
      | none => rw [hra] at hres; cases hres
      | some ls =>
        rw [hra] at hres
        simp only [Option.map_some', Option.some.injEq] at hres
        subst hres
        intro l hl
        rw [asyncRetrieveAll_cons env u loc rest hg]
        rcases List.mem_cons.mp hl with rfl | hl2
        · exact List.mem_cons_of_mem _ (List.mem_cons_self _ _)
        · exact List.mem_cons_of_mem _
            (List.mem_cons_of_mem _ (ih ls hra l hl2))

/-- The eager fan-out performs no parsing. -/
theorem asyncRetrieveAll_no_parse {δ ε : Type} (env : Env δ ε)
    (urls : List String) (c : String) :
    Ev.parseDoc c ∉ (asyncRetrieveAll env urls).2 := by
  induction urls with
  | nil => intro h; cases h
  | cons u rest ih =>
    cases hg : env.get_abspath u with
    | none =>
      intro h
      have h2 : (asyncRetrieveAll env (u :: rest)).2 = [Ev.resolve u] := by
        simp [asyncRetrieveAll, hg]
      rw [h2] at h
      rcases List.mem_cons.mp h with h3 | h3
      · cases h3
      · cases h3
    | some loc =>
      intro h
      rw [asyncRetrieveAll_cons env u loc rest hg] at h
      rcases List.mem_cons.mp h with h3 | h3
      · cases h3
      · rcases List.mem_cons.mp h3 with h4 | h4
        · cases h4
        · exact ih h4

/-- When resolving and reading everything succeeds, every resolved
location was read successfully. -/
theorem readAllSpec_reads {δ ε : Type} (env : Env δ ε)
    (urls locs cs : List String)
    (hres : resolveAll (δ := δ) (ε := ε) env urls = some locs)
    (hok : readAllSpec (δ := δ) (ε := ε) env urls = some cs) :
    ∀ l ∈ locs, ∃ c, env.urlread l = some c := by
  induction urls generalizing locs cs with
  | nil =>
    simp only [resolveAll, Option.some.injEq] at hres
    subst hres
    intro l hl
    cases hl
  | cons u rest ih =>
    cases hg : env.get_abspath u with
    | none => simp only [resolveAll, hg] at hres; cases hres
    | some loc =>
      simp only [resolveAll, hg] at hres
      simp only [readAllSpec, hg] at hok
      cases hu : env.urlread loc with
      | none => rw [hu] at hok; simp at hok
      | some c =>
        rw [hu] at hok
        cases hra : resolveAll (δ := δ) (ε := ε) env rest with
        | none => rw [hra] at hres; cases hres
        | some ls =>
          rw [hra] at hres
          simp only [Option.map_some', Option.some.injEq] at hres
          subst hres
          cases hrd : readAllSpec (δ := δ) (ε := ε) env rest with
          | none => rw [hrd] at hok; simp at hok
          | some cs2 =>
            intro l hl
            rcases List.mem_cons.mp hl with rfl | hl2
            · exact ⟨c, hu⟩
            · exact ih ls cs2 hra hrd l hl2

/-- C1: for every sources list and every fallback feed F (including the
empty one), both orchestrators called with skip = true return exactly the
pair (F, true) — F verbatim, no substitution — with an empty event trace:
no resolution, retrieval or parsing runs, even when the returned feed is
then fully consumed. -/
theorem claim_C1_skip_passthrough (δ ε : Type) (env : Env δ ε)
    (urls : List String) (F : List ε) :
    runParser env urls true (some F) = (Except.ok (F, true), []) ∧
    runAsyncParser env urls true (some F) = (Except.ok (F, true), []) :=
  ⟨rfl, rfl⟩

/-- C2: when source 1 normalizes to entries [a1, a2] and source 2 to
[b1, b2], both orchestrators produce exactly [a1, a2, b1, b2] — the full
order-preserving concatenation in source-declaration order. -/
theorem claim_C2_merge_order (δ ε : Type) (env : Env δ ε)
    (u1 u2 l1 l2 c1 c2 : String) (d1 d2 : δ) (a1 a2 b1 b2 : ε)
    (kwargs : Option (List ε))
    (h1 : env.get_abspath u1 = some l1) (h2 : env.urlread l1 = some c1)
    (h3 : env.sp_parse c1 = some d1) (h4 : env.gen_entries d1 = [a1, a2])
    (h5 : env.get_abspath u2 = some l2) (h6 : env.urlread l2 = some c2)
    (h7 : env.sp_parse c2 = some d2) (h8 : env.gen_entries d2 = [b1, b2]) :
    resOk (runParser env [u1, u2] false kwargs) =
      some ([a1, a2, b1, b2], false) ∧
    resOk (runAsyncParser env [u1, u2] false kwargs) =
      some ([a1, a2, b1, b2], false) := by
  have hf : fetchAll env [u1, u2] = some [a1, a2, b1, b2] := by
    simp [fetchAll, fetchSource, h1, h2, h3, h4, h5, h6, h7, h8]
  constructor
  · rw [runParser_spec]
    simp [runSpec, hf]
  · rw [runAsyncParser_spec]
    simp [runSpec, hf]

/-- Witness for C2 on the concrete environment: two healthy sources whose
entries are [9, 10] and [10, 11]. -/
theorem claim_C2_merge_order_witness :
    resOk (runParser envW ["a", "bb"] false (none : Option (List Nat))) =
      some ([9, 10, 10, 11], false) ∧
    resOk (runAsyncParser envW ["a", "bb"] false (none : Option (List Nat))) =
      some ([9, 10, 10, 11], false) :=
  claim_C2_merge_order Nat Nat envW "a" "bb" "abs:a" "abs:bb" "raw:abs:a"
    "raw:abs:bb" 9 10 9 10 10 11 none rfl rfl rfl rfl rfl rfl rfl rfl

/-- C3: with skip = false, a resolution, retrieval or parse failure of any
listed source makes the whole invocation of either orchestrator fail: no
successful result — in particular none holding only the earlier sources'
entries — is produced. -/
theorem claim_C3_fail_fast (δ ε : Type) (env : Env δ ε)
    (urls : List String) (u : String) (e : Err) (kwargs : Option (List ε))
    (hm : u ∈ urls) (hf : (fetchSource env u).1 = Except.error e) :
    resOk (runParser env urls false kwargs) = none ∧
    resOk (runAsyncParser env urls false kwargs) = none := by
  have key : fetchAll env urls = none := by
    cases hfa : fetchAll env urls with
    | none => rfl
    | some es =>
      rcases fetchAll_sourceOk env urls es hfa u hm with ⟨es1, hok⟩
      rw [hok] at hf
      cases hf
  constructor
  · rw [runParser_spec]
    simp [runSpec, key]
  · rw [runAsyncParser_spec]
    simp [runSpec, key]

/-- Witness for C3 on the concrete environment: source "a" succeeds but
source "dead" fails to read, and both orchestrators fail. -/
theorem claim_C3_fail_fast_witness :
    resOk (runParser envW ["a", "dead"] false (none : Option (List Nat))) =
      none ∧
    resOk (runAsyncParser envW ["a", "dead"] false (none : Option (List Nat))) =
      none :=
  claim_C3_fail_fast Nat Nat envW ["a", "dead"] "dead" Err.retrieval none
    (by decide) rfl

/-- C4: for every input and identical collaborator behaviour, the
concurrent and the sequential orchestrator yield equal results: the same
skip flag and the same entry sequence with the same items in the same
order (`resOk` extracts the successful (entries, flag) pair; both fail
together otherwise). -/
theorem claim_C4_seq_async_equiv (δ ε : Type) (env : Env δ ε)
    (urls : List String) (skip : Bool) (kwargs : Option (List ε)) :
    resOk (runParser env urls skip kwargs) =
      resOk (runAsyncParser env urls skip kwargs) := by
  rw [runParser_spec, runAsyncParser_spec]

/-- C7: whenever either orchestrator returns a result, its second
component equals the skip argument the caller supplied. -/
theorem claim_C7_flag_unchanged (δ ε : Type) (env : Env δ ε)
    (urls : List String) (skip : Bool) (kwargs : Option (List ε))
    (es : List ε) (b : Bool)
    (h : (runParser env urls skip kwargs).1 = Except.ok (es, b) ∨
      (runAsyncParser env urls skip kwargs).1 = Except.ok (es, b)) :
    b = skip := by
  rcases h with h | h
  · have h2 := resOk_of_fst _ _ h
    rw [runParser_spec] at h2
    exact runSpec_flag env urls skip kwargs es b h2
  · have h2 := resOk_of_fst _ _ h
    rw [runAsyncParser_spec] at h2
    exact runSpec_flag env urls skip kwargs es b h2

/-- Witness for C7 on the concrete environment: a successful sequential
fetch returns the flag false it was called with. -/
theorem claim_C7_flag_unchanged_witness : false = false :=
  claim_C7_flag_unchanged Nat Nat envW ["a"] false none [9, 10] false
    (Or.inl rfl)

/-- C9: with skip = true and no feed entry in kwargs, both orchestrators
fail with a KeyError instead of substituting a default or empty
sequence. -/
theorem claim_C9_missing_feed_keyerror (δ ε : Type) (env : Env δ ε)
    (urls : List String) :
    parser (ε := ε) urls true none = Except.error Err.keyError ∧
    asyncParser env urls true (none : Option (List ε)) =
      (Except.error Err.keyError, []) ∧
    runParser env urls true (none : Option (List ε)) =
      (Except.error Err.keyError, []) ∧
    runAsyncParser env urls true (none : Option (List ε)) =
      (Except.error Err.keyError, []) :=
  ⟨rfl, rfl, rfl, rfl⟩

/-- C10: with skip = false the result of either orchestrator — entries,
flag and even the event trace — is identical for any two values of the
feed keyword argument: the fallback is never read on the retrieval
path. -/
theorem claim_C10_feed_independence (δ ε : Type) (env : Env δ ε)
    (urls : List String) (f1 f2 : Option (List ε)) :
    runParser env urls false f1 = runParser env urls false f2 ∧
    runAsyncParser env urls false f1 = runAsyncParser env urls false f2 :=
  ⟨rfl, rfl⟩

/-- C5: in sequential mode with skip = false, no retrieval or parse for a
later source runs until the consumer's demand reaches it: pulling only
the first entry of a two-source merge performs exactly source 1's
resolve, retrieve and parse — the trace contains no event of source 2,
and the outcome does not depend on source 2 at all. -/
theorem claim_C5_sequential_laziness (δ ε : Type) (env : Env δ ε)
    (u1 u2 l1 c1 : String) (d1 : δ) (a : ε) (tl : List ε)
    (h1 : env.get_abspath u1 = some l1) (h2 : env.urlread l1 = some c1)
    (h3 : env.sp_parse c1 = some d1)
    (h4 : env.gen_entries d1 = a :: tl) :
    seqPull env [u1, u2] 1 =
      (Except.ok [a], [Ev.resolve u1, Ev.retrieve l1, Ev.parseDoc c1]) := by
  simp [seqPull, fetchSource, h1, h2, h3, h4]

/-- Witness for C5 on the concrete environment: source 2 is "dead",
whose retrieval would fail, yet pulling one entry succeeds and only
source 1's events ran. -/
theorem claim_C5_sequential_laziness_witness :
    seqPull envW ["a", "dead"] 1 =
      (Except.ok [9], [Ev.resolve "a", Ev.retrieve "abs:a",
        Ev.parseDoc "raw:abs:a"]) :=
  claim_C5_sequential_laziness Nat Nat envW "a" "dead" "abs:a" "raw:abs:a"
    9 9 [10] rfl rfl rfl rfl

/-- C6: in concurrent mode with skip = false, every source's retrieval is
issued eagerly by the orchestrator call itself (each resolved location's
retrieve event is in the call's trace, whatever the reads return), the
call returns a feed only if every resolved location was read successfully
(the single suspension point), and no parsing happens during the call
(parse and normalize stay deferred to consumption). -/
theorem claim_C6_concurrent_eager_retrieval (δ ε : Type) (env : Env δ ε)
    (urls : List String) (locs : List String) (kwargs : Option (List ε))
    (hres : resolveAll (δ := δ) (ε := ε) env urls = some locs) :
    (∀ l ∈ locs, Ev.retrieve l ∈ (asyncParser env urls false kwargs).2) ∧
    (∀ feed sk, (asyncParser env urls false kwargs).1 =
        Except.ok (feed, sk) → ∀ l ∈ locs, ∃ c, env.urlread l = some c) ∧
    (∀ c, Ev.parseDoc c ∉ (asyncParser env urls false kwargs).2) := by
  refine ⟨?_, ?_, ?_⟩
  · intro l hl
    rw [asyncParser_trace]
    exact asyncRetrieveAll_issues env urls locs hres l hl
  · intro feed sk h
    have hok : ∃ cs, (asyncRetrieveAll env urls).1 = Except.ok cs := by
      simp only [asyncParser, if_neg Bool.false_ne_true] at h
      rcases hr : asyncRetrieveAll env urls with ⟨r, tr⟩
      rw [hr] at h
      cases r with
      | error e => cases h
      | ok cs => exact ⟨cs, rfl⟩
    rcases hok with ⟨cs, hok⟩
    have hspec := asyncRetrieveAll_spec (ε := ε) env urls
    have h2 := resOk_of_fst _ _ hok
    rw [hspec] at h2
    exact readAllSpec_reads env urls locs cs hres h2
  · intro c
    rw [asyncParser_trace]
    exact asyncRetrieveAll_no_parse env urls c
/-- Witness for C6 on the concrete environment: both sources resolve, and
the orchestrator call's trace shows both retrievals issued eagerly with
no parsing. -/
theorem claim_C6_concurrent_eager_retrieval_witness :
    (∀ l ∈ ["abs:a", "abs:bb"],
      Ev.retrieve l ∈ (asyncParser envW ["a", "bb"] false
        (none : Option (List Nat))).2) ∧
    (∀ feed sk, (asyncParser envW ["a", "bb"] false
        (none : Option (List Nat))).1 = Except.ok (feed, sk) →
      ∀ l ∈ ["abs:a", "abs:bb"], ∃ c, envW.urlread l = some c) ∧
    (∀ c, Ev.parseDoc c ∉ (asyncParser envW ["a", "bb"] false
        (none : Option (List Nat))).2) :=
  claim_C6_concurrent_eager_retrieval Nat Nat envW ["a", "bb"]
    ["abs:a", "abs:bb"] none rfl

/-- Concatenation of two possibly infinite sequences ends exactly when
both do. -/
theorem LSeq.append_isFinite {α : Type} (s t : LSeq α) :
    (LSeq.append s t).isFinite = (s.isFinite && t.isFinite) := by
  cases s with
  | fin l => cases t <;> rfl
  | inf f => cases t <;> rfl

/-- The merged sequence ends exactly when every input sequence does. -/
theorem multiplex_isFinite {α : Type} (ss : List (LSeq α)) :
    (multiplex ss).isFinite = ss.all LSeq.isFinite := by
  induction ss with
  | nil => rfl
  | cons s rest ih =>
    show (LSeq.append s (multiplex rest)).isFinite = _
    rw [LSeq.append_isFinite, ih]
    rfl

/-- On finite inputs the Merger model is exactly the ordered list
concatenation the orchestrator models use. -/
theorem multiplex_fin {α : Type} (ls : List (List α)) :
    multiplex (ls.map LSeq.fin) = LSeq.fin ls.flatten := by
  induction ls with
  | nil => rfl
  | cons l rest ih =>
    show LSeq.append (LSeq.fin l) (multiplex (rest.map LSeq.fin)) = _
    rw [ih]
    rfl

/-- C8: the merged sequence produced by the Merger is finite if and only
if every per-source input sequence is finite; if some input is infinite,
the combined sequence is infinite — consumption yields an entry at every
position and never reaches the end. -/
theorem claim_C8_merge_finiteness (α : Type) (ss : List (LSeq α)) :
    ((multiplex ss).isFinite = true ↔ ∀ s ∈ ss, s.isFinite = true) ∧
    ((multiplex ss).isFinite = false →
      ∀ n, (multiplex ss).nth n ≠ none) := by
  constructor
  · rw [multiplex_isFinite]
    exact List.all_eq_true
  · intro h n
    cases hm : multiplex ss with
    | fin l => rw [hm] at h; cases h
    | inf f =>
      simp [LSeq.nth]

/-- Witness for C8: merging a finite source with an infinite one gives an
infinite sequence that still has an entry at position 5. -/
theorem claim_C8_merge_finiteness_witness :
    (multiplex [LSeq.fin [1, 2], LSeq.inf (fun n => n)]).isFinite = false ∧
    (multiplex [LSeq.fin [1, 2], LSeq.inf (fun n => n)]).nth 5 ≠ none :=
  ⟨rfl, (claim_C8_merge_finiteness Nat
    [LSeq.fin [1, 2], LSeq.inf (fun n => n)]).2 rfl 5⟩

end Pipefetch
